import Mathlib

/-!
Verification of the replica-set topology coordinator described by
`src/mongo/db/repl/topology_coordinator.h`.

The repository ships only the abstract interface (every operation of
`TopologyCoordinator` is pure virtual); the concrete engine is not part of
the sources.  The definitions below therefore embed the coordinator's data
model and operations from the interface's documentation comments and from
the accompanying specification, as noted on each definition.
-/

namespace MongoRepl

/-- Role of a node in the replication protocol
(`TopologyCoordinator::Role`: leader, follower, candidate). -/
inductive Role where
  | leader
  | follower
  | candidate
deriving DecidableEq

/-- `TopologyCoordinator::LeaderMode`: the modes a node can be in while still
reporting itself as in state PRIMARY (header lines 97-103). -/
inductive LeaderMode where
  | kNotLeader
  | kLeaderElect
  | kMaster
  | kSteppingDown
  | kAttemptingStepDown
deriving DecidableEq

/-- `TopologyCoordinator::UpdateTermResult` (header line 162). -/
inductive UpdateTermResult where
  | kAlreadyUpToDate
  | kTriggerStepDown
  | kUpdatedTerm
deriving DecidableEq

/-- The two `HeartbeatResponseAction` outcomes relevant to
`checkMemberTimeouts` (header lines 462-467). -/
inductive HeartbeatResponseAction where
  | noAction
  | stepDownSelf
deriving DecidableEq

/-- An oplog position: a term and a timestamp (in seconds), compared
lexicographically by (term, timestamp) as in spec 4.6. -/
structure OpTime where
  term : Int
  ts : Nat
deriving DecidableEq

/-- The smallest `OpTime` in protocol version 1, `OpTime(Timestamp(0, 0), 0)`. -/
def OpTime.zero : OpTime := ⟨0, 0⟩

/-- (term, timestamp) lexicographic non-strict order on opTimes. -/
def OpTime.leB (a b : OpTime) : Bool :=
  a.term < b.term || (a.term == b.term && a.ts ≤ b.ts)

/-- (term, timestamp) lexicographic strict order on opTimes. -/
def OpTime.ltB (a b : OpTime) : Bool :=
  a.term < b.term || (a.term == b.term && a.ts < b.ts)

/-- Modelled from the spec: per-member mutable record (`MemberData`, spec 3).
The concrete `MemberData` class is not part of the sources; the fields below
are the ones the verified operations read: identity, vote weight, liveness,
electability, the last applied/durable opTimes, the last update time, the
heartbeat-restart freshness flag, and the last opTime learned by heartbeat. -/
structure MemberData where
  host : Nat
  isSelf : Bool
  isVoter : Bool
  up : Bool
  electable : Bool
  lastApplied : OpTime
  lastDurable : OpTime
  lastUpdate : Nat
  updatedSinceRestart : Bool
  hbApplied : OpTime
deriving DecidableEq

/-- Modelled from the spec: the coordinator's single in-memory state object
(spec 2-3).  The concrete `TopologyCoordinatorImpl` is not part of the
sources; the fields are the ones named by the interface comments: role,
leader mode, term, self index, current primary index, the freeze deadline
(`electionSleepUntil`, which the spec glossary identifies with the stepdown
period), the commit floor `firstOpTimeOfTerm`, the last committed opTime,
configuration values, the member registry, and the sync-source blacklist. -/
structure TopoState where
  role : Role
  leaderMode : LeaderMode
  term : Int
  selfIndex : Int
  currentPrimaryIndex : Int
  electionSleepUntil : Nat
  firstOpTimeOfTerm : OpTime
  lastCommittedOpTime : OpTime
  writeConcernMajorityJournalDefault : Bool
  electionTimeout : Nat
  protocolVersion : Nat
  maxSyncSourceLagSecs : Nat
  members : List MemberData
  blacklist : List (Nat × Nat)
deriving DecidableEq

/-- `canAcceptWrites()` (header lines 121-124): whether this node should be
allowed to accept writes.  Modelled from the spec: true iff Role = leader and
LeaderMode = master (spec 4.1). -/
def canAcceptWrites (s : TopoState) : Bool :=
  s.role == .leader && s.leaderMode == .kMaster

/-- `updateTerm(term, now)` (header lines 170-175): sets the latest term this
member is aware of to the higher of its current value and the value passed
in, and returns whether the term was already up to date, was updated, or a
stepdown should be triggered.  Modelled from the spec (the engine itself is
not in the sources). -/
def updateTerm (s : TopoState) (term : Int) (_now : Nat) :
    UpdateTermResult × TopoState :=
  if term ≤ s.term then (.kAlreadyUpToDate, s)
  else
    let s2 := { s with term := term }
    if s.role = .leader then (.kTriggerStepDown, s2) else (.kUpdatedTerm, s2)

/-- The opTime of this node's own member entry (the distinguished self entry
of the member registry, spec 3). -/
def myLastApplied (s : TopoState) : OpTime :=
  match s.members.find? (fun m => m.isSelf) with
  | some m => m.lastApplied
  | none => OpTime.zero

/-- Number of voting members in the current configuration (spec 3: vote
count of each member is 0 or 1). -/
def voterCount (s : TopoState) : Nat :=
  (s.members.filter (fun m => m.isVoter)).length

/-- Size of a strict majority of the voting members: ⌊N/2⌋ + 1. -/
def majorityVoterCount (s : TopoState) : Nat :=
  voterCount s / 2 + 1

/-- The voting members whose last applied opTime has caught up to (is at
least) our own last applied opTime — the majority set M of the stepdown
conditions (header lines 569-590). -/
def caughtUpVoters (s : TopoState) : List MemberData :=
  s.members.filter (fun m => m.isVoter && OpTime.leB (myLastApplied s) m.lastApplied)

/-- `isSafeToStepDown()` (header lines 592-597): conditions C2 and C3 of
`attemptStepDown` — a majority of voting members have caught up to our last
applied opTime, and at least one caught-up member other than self is
electable.  Modelled from the spec. -/
def isSafeToStepDown (s : TopoState) : Bool :=
  decide (majorityVoterCount s ≤ (caughtUpVoters s).length) &&
    (caughtUpVoters s).any (fun m => !m.isSelf && m.electable)

/-- Distinguished error kinds thrown by `attemptStepDown` (header lines
569-590: "If the whole stepdown attempt should be abandoned ... throws an
exception"). -/
inductive StepDownErr where
  | alreadySteppedDown
  | deadlineOrTermChanged
deriving DecidableEq

/-- `attemptStepDown(termAtStart, now, waitUntil, stepDownUntil, force)`
(header lines 569-590).  Modelled from the spec: succeeds iff
(C1) force and now > waitUntil, or (C2 and C3) `isSafeToStepDown`; on success
the node transitions attempting-step-down to not-leader, Role to follower,
clears the primary index and sets the freeze deadline to
now + stepDownUntil (spec 4.5); returns false while neither condition holds
and the deadline has not been reached; throws when the attempt was already
superseded, when now ≥ stepDownUntil, or when the term changed. -/
def attemptStepDown (s : TopoState) (termAtStart : Int)
    (now waitUntil stepDownUntil : Nat) (force : Bool) :
    Except StepDownErr (Bool × TopoState) :=
  if s.leaderMode ≠ .kAttemptingStepDown then .error .alreadySteppedDown
  else if stepDownUntil ≤ now ∨ s.term ≠ termAtStart then
    .error .deadlineOrTermChanged
  else if (force = true ∧ waitUntil < now) ∨ isSafeToStepDown s = true then
    .ok (true, { s with
      role := .follower
      leaderMode := .kNotLeader
      currentPrimaryIndex := -1
      electionSleepUntil := now + stepDownUntil })
  else .ok (false, s)

/-- `becomeCandidateIfStepdownPeriodOverAndSingleNodeSet(now)` (header lines
224-229).  Modelled from the spec: checks whether we are a single node set
and we are not in a stepdown period; if so, puts us into candidate mode,
otherwise does nothing. -/
def becomeCandidateIfStepdownPeriodOverAndSingleNodeSet
    (s : TopoState) (now : Nat) : Bool × TopoState :=
  if s.electionSleepUntil ≤ now ∧ s.members.length = 1 then
    (true, { s with role := .candidate })
  else (false, s)

/-- Modelled from the spec: the protocol operations of spec 4 that touch the
role/leader-mode machine.  The concrete engine is not in the sources; each
constructor is one interface entry point (or the success path of one). -/
inductive TopoOp where
  | winElection
  | loseElection
  | completeTransitionToPrimary (firstOpTime : OpTime)
  | prepareForStepDownAttemptOp
  | abortAttemptedStepDownOp
  | prepareForUnconditionalStepDownOp
  | finishUnconditionalStepDownOp
  | attemptStepDownOp (termAtStart : Int) (now waitUntil stepDownUntil : Nat)
      (force : Bool)
  | becomeCandidateOp (now : Nat)
  | observePrimaryOp (idx : Int)
  | updateTermOp (t : Int) (now : Nat)

/-- Modelled from the spec: the state transition of each protocol operation
(spec 4.1, 4.4, 4.5).  An operation whose precondition fails leaves the
state unchanged (the engine reports the rejection to its caller instead).
`prepareForUnconditionalStepDown` follows the header's transition diagram
(lines 74-95): it may begin from leader-elect, master or
attempting-step-down, and is refused only when already stepping down. -/
def applyOp (op : TopoOp) (s : TopoState) : TopoState :=
  match op with
  | .winElection =>
      if s.role = .candidate then
        { s with role := .leader, leaderMode := .kLeaderElect,
                 currentPrimaryIndex := s.selfIndex }
      else s
  | .loseElection =>
      if s.role = .candidate then { s with role := .follower } else s
  | .completeTransitionToPrimary fot =>
      if s.leaderMode = .kLeaderElect then
        { s with leaderMode := .kMaster, firstOpTimeOfTerm := fot,
                 electionSleepUntil := 0 }
      else s
  | .prepareForStepDownAttemptOp =>
      if s.leaderMode = .kMaster then
        { s with leaderMode := .kAttemptingStepDown }
      else s
  | .abortAttemptedStepDownOp =>
      if s.leaderMode = .kAttemptingStepDown then
        { s with leaderMode := .kMaster }
      else s
  | .prepareForUnconditionalStepDownOp =>
      if s.leaderMode = .kLeaderElect ∨ s.leaderMode = .kMaster ∨
          s.leaderMode = .kAttemptingStepDown then
        { s with leaderMode := .kSteppingDown }
      else s
  | .finishUnconditionalStepDownOp =>
      if s.leaderMode = .kSteppingDown then
        { s with leaderMode := .kNotLeader, role := .follower,
                 currentPrimaryIndex := -1 }
      else s
  | .attemptStepDownOp t now w u f =>
      match attemptStepDown s t now w u f with
      | .ok (_, s2) => s2
      | .error _ => s
  | .becomeCandidateOp now =>
      if s.role = .follower ∧ s.electionSleepUntil ≤ now then
        { s with role := .candidate }
      else s
  | .observePrimaryOp idx =>
      if s.role = .follower then { s with currentPrimaryIndex := idx } else s
  | .updateTermOp t now => (updateTerm s t now).2

/-- A freshly started coordinator: follower with no leader mode (spec 4.4:
elections start from the follower role). -/
def initOK (s : TopoState) : Prop :=
  s.role = .follower ∧ s.leaderMode = .kNotLeader

/-- States reachable from an initial state by the protocol operations. -/
inductive Reachable (s0 : TopoState) : TopoState → Prop where
  | refl : Reachable s0 s0
  | step : ∀ {s : TopoState} (op : TopoOp), Reachable s0 s →
      Reachable s0 (applyOp op s)

/-- The invariant tying Role, LeaderMode and the primary index together
(spec 3, Invariants): a node is leader exactly when its LeaderMode is not
not-leader, and a leader's current primary index is its own index. -/
def roleModeOK (s : TopoState) : Prop :=
  (s.role = .leader ↔ s.leaderMode ≠ .kNotLeader) ∧
    (s.role = .leader → s.currentPrimaryIndex = s.selfIndex)

/-- The LeaderMode transitions enumerated by claim C2: not-leader to
leader-elect, leader-elect to master, master to attempting-step-down and
back, master or attempting-step-down to stepping-down, and stepping-down or
attempting-step-down to not-leader. -/
def claimedLeaderModeEdge (a b : LeaderMode) : Bool :=
  (a == .kNotLeader && b == .kLeaderElect) ||
  (a == .kLeaderElect && b == .kMaster) ||
  (a == .kMaster && b == .kAttemptingStepDown) ||
  (a == .kAttemptingStepDown && b == .kMaster) ||
  (a == .kMaster && b == .kSteppingDown) ||
  (a == .kAttemptingStepDown && b == .kSteppingDown) ||
  (a == .kSteppingDown && b == .kNotLeader) ||
  (a == .kAttemptingStepDown && b == .kNotLeader)

/-- The legal LeaderMode transitions of the header's diagram (lines 74-95):
the claimed ones plus leader-elect to stepping-down, which occurs when an
unconditional stepdown begins before the transition to master completes. -/
def amendedLeaderModeEdge (a b : LeaderMode) : Bool :=
  claimedLeaderModeEdge a b || (a == .kLeaderElect && b == .kSteppingDown)

/-- A concrete voting member used by the concrete test states below. -/
def wMember (h : Nat) (self : Bool) (applied : OpTime) : MemberData :=
  { host := h, isSelf := self, isVoter := true, up := true, electable := true,
    lastApplied := applied, lastDurable := applied, lastUpdate := 0,
    updatedSinceRestart := true, hbApplied := applied }

/-- A concrete freshly started three-member coordinator state. -/
def baseState : TopoState :=
  { role := .follower, leaderMode := .kNotLeader, term := 1, selfIndex := 0,
    currentPrimaryIndex := -1, electionSleepUntil := 0,
    firstOpTimeOfTerm := OpTime.zero, lastCommittedOpTime := OpTime.zero,
    writeConcernMajorityJournalDefault := false, electionTimeout := 10,
    protocolVersion := 1, maxSyncSourceLagSecs := 30,
    members := [wMember 0 true ⟨1, 5⟩, wMember 1 false ⟨1, 5⟩,
      wMember 2 false ⟨1, 5⟩],
    blacklist := [] }

/-- `baseState` after standing for and winning an election. -/
def leaderElectState : TopoState :=
  applyOp .winElection (applyOp (.becomeCandidateOp 0) baseState)

/-- `leaderElectState` after completing the transition to primary. -/
def masterState : TopoState :=
  applyOp (.completeTransitionToPrimary ⟨1, 5⟩) leaderElectState

/-- A concrete single-node replica-set state. -/
def singleNodeState : TopoState :=
  { baseState with members := [wMember 0 true ⟨1, 5⟩] }

/-- Insert an opTime into a descending-sorted list (the sort used by the
commit calculator, spec 4.6). -/
def insertDesc (x : OpTime) : List OpTime → List OpTime
  | [] => [x]
  | y :: t => if OpTime.leB y x then x :: y :: t else y :: insertDesc x t

/-- Sort a list of opTimes in descending (term, timestamp) order. -/
def sortDesc : List OpTime → List OpTime
  | [] => []
  | x :: t => insertDesc x (sortDesc t)

/-- A list sorted in descending (term, timestamp) order. -/
abbrev DescSorted (l : List OpTime) : Prop :=
  List.Pairwise (fun a b => OpTime.leB b a = true) l

/-- The applied (when `writeConcernMajorityJournalDefault` is false) or
durable (otherwise) opTimes of all voting members including self
(spec 4.6). -/
def votingOpTimes (s : TopoState) : List OpTime :=
  (s.members.filter (fun m => m.isVoter)).map
    (fun m => if s.writeConcernMajorityJournalDefault then m.lastDurable
              else m.lastApplied)

/-- `updateLastCommittedOpTime()` (header lines 248-256).  Modelled from the
spec: collect the applied or durable opTime of every voting member including
self, sort descending, pick the element at index ⌊N/2⌋; if that opTime is in
the current term, strictly greater than the current last committed opTime,
and at least `firstOpTimeOfTerm` while leader, set it and return true;
otherwise return false and leave the state unchanged (spec 4.6). -/
def updateLastCommittedOpTime (s : TopoState) : Bool × TopoState :=
  let ots := votingOpTimes s
  match (sortDesc ots).get? (ots.length / 2) with
  | none => (false, s)
  | some c =>
      if c.term = s.term ∧ OpTime.ltB s.lastCommittedOpTime c = true ∧
          (s.role = .leader → OpTime.leB s.firstOpTimeOfTerm c = true) then
        (true, { s with lastCommittedOpTime := c })
      else (false, s)

/-- A concrete five-voter state matching the spec's majority-commit
scenario: applied opTimes (2,10), (2,10), (2,9), (2,8), (2,7) in term 2. -/
def commitState : TopoState :=
  { baseState with
    term := 2,
    members := [wMember 0 true ⟨2, 10⟩, wMember 1 false ⟨2, 10⟩,
      wMember 2 false ⟨2, 9⟩, wMember 3 false ⟨2, 8⟩, wMember 4 false ⟨2, 7⟩] }

/-- `masterState` after `prepareForStepDownAttempt`: a concrete reachable
state with a stepdown attempt in flight. -/
def attemptingState : TopoState :=
  applyOp .prepareForStepDownAttemptOp masterState

/-- Whether `host` currently has a blacklist entry that suppresses it as a
sync source (`blacklistSyncSource`, header lines 191-194). -/
def isBlacklisted (s : TopoState) (host : Nat) (now : Nat) : Bool :=
  s.blacklist.any (fun e => e.1 == host && now < e.2)

/-- Look up a member of the current config by host. -/
def findMemberByHost (s : TopoState) (host : Nat) : Option MemberData :=
  s.members.find? (fun m => m.host == host)

/-- The fields of the `ReplSetMetadata` / `OplogQueryMetadata` pair that
`shouldChangeSyncSource` reads: the sync source's reported opTime, whether
it has a sync source of its own, and whether it is itself primary. -/
structure SyncSourceMetadata where
  sourceOpTime : OpTime
  sourceHasSyncSource : Bool
  sourceIsPrimary : Bool
deriving DecidableEq

/-- A member that could serve as a sync source: up, not self, and not
currently blacklisted ("now" is used to skip over currently blacklisted
sync sources, header line 215). -/
def syncableCandidate (s : TopoState) (now : Nat) (c : MemberData) : Bool :=
  c.up && !c.isSelf && !isBlacklisted s c.host now

/-- `shouldChangeSyncSource(currentSource, replMetadata, oqMetadata, now)`
(header lines 207-222).  Modelled from the spec: true when the current
source is no longer in the config, is blacklisted, is down, or lags some
syncable candidate by more than `maxSyncSourceLagSecs`; the protocol-v1
clause follows the header comment (lines 211-213): the source is not itself
primary, has no sync source, and only has data up to our last applied
opTime — a conjunction of all three. -/
def shouldChangeSyncSource (s : TopoState) (currentSource : Nat)
    (md : SyncSourceMetadata) (now : Nat) : Bool :=
  match findMemberByHost s currentSource with
  | none => true
  | some m =>
      isBlacklisted s currentSource now ||
      !m.up ||
      (s.protocolVersion == 1 && !md.sourceIsPrimary &&
        !md.sourceHasSyncSource &&
        OpTime.leB md.sourceOpTime (myLastApplied s)) ||
      s.members.any (fun c => syncableCandidate s now c &&
        decide (md.sourceOpTime.ts + s.maxSyncSourceLagSecs < c.hbApplied.ts))

/-- A concrete state whose sync source (host 1) is in the config, up and not
blacklisted, with our own last applied opTime (1,5). -/
def syncSourceCexState : TopoState :=
  { baseState with members := [wMember 0 true ⟨1, 5⟩, wMember 1 false ⟨1, 5⟩] }

/-- Concrete metadata reported by the sync source for the counterexample:
not primary, no sync source of its own, opTime (1,9) ahead of ours. -/
def syncSourceCexMd : SyncSourceMetadata :=
  { sourceOpTime := ⟨1, 9⟩, sourceHasSyncSource := false,
    sourceIsPrimary := false }

/-- Scan of `latestKnownOpTimeSinceHeartbeatRestart` (header lines 693-701):
walk the member registry skipping self; fail to `none` on the first member
that has not responded since the last `restartHeartbeats()`; skip down
members; keep the running maximum of the up members' heartbeat opTimes. -/
def latestKnownAux : List MemberData → OpTime → Option OpTime
  | [], acc => some acc
  | m :: t, acc =>
      if m.isSelf = true then latestKnownAux t acc
      else if m.updatedSinceRestart = false then none
      else if m.up = false then latestKnownAux t acc
      else latestKnownAux t
        (if OpTime.leB acc m.hbApplied = true then m.hbApplied else acc)

/-- `latestKnownOpTimeSinceHeartbeatRestart()` (header lines 693-701).
Modelled from the spec: `none` if any other member has not responded since
heartbeats were restarted, else the maximum heartbeat opTime across all up
members, starting from the smallest opTime `OpTime(0,0)`. -/
def latestKnownOpTimeSinceHeartbeatRestart (s : TopoState) : Option OpTime :=
  latestKnownAux s.members OpTime.zero

/-- `Date_t::max()`, the sentinel returned by `getStalestLiveMember` when no
live peers exist (header lines 455-460): the largest representable date. -/
def dateMax : Nat := 2 ^ 63 - 1

/-- Scan of `getStalestLiveMember` (header lines 455-460): walk the member
registry with its indices, skipping self and non-live entries, keeping the
index and timestamp of the live peer with the strictly smallest
`lastUpdate` seen so far. -/
def stalestAux : List MemberData → Nat → Int × Nat → Int × Nat
  | [], _, acc => acc
  | m :: t, i, acc =>
      if m.isSelf = true ∨ m.up = false then stalestAux t (i + 1) acc
      else if m.lastUpdate < acc.2 then
        stalestAux t (i + 1) (Int.ofNat i, m.lastUpdate)
      else stalestAux t (i + 1) acc

/-- `getStalestLiveMember()` (header lines 455-460).  Modelled from the
spec: (-1, Date_t::max()) when no live peers exist, else the index of the
live peer with minimum `lastUpdate` together with that timestamp. -/
def getStalestLiveMember (s : TopoState) : Int × Nat :=
  stalestAux s.members 0 (-1, dateMax)

/-- A member with a given host, self flag and last update time. -/
def staleMember (h : Nat) (self : Bool) (lu : Nat) : MemberData :=
  { wMember h self ⟨1, 5⟩ with lastUpdate := lu }

/-- A concrete state whose live peers were last updated at times 7 and 3. -/
def staleState : TopoState :=
  { baseState with members := [staleMember 0 true 0, staleMember 1 false 7,
      staleMember 2 false 3] }

/-- Total vote weight of a member list (spec 4.2: N = total vote weight;
votes are 0 or 1 per member, spec 3). -/
def totalVotesL (ms : List MemberData) : Nat :=
  ms.countP (fun m => m.isVoter)

/-- Vote weight of the members currently seen up, always counting self
(spec 4.2: "remaining up members including self"). -/
def upVotesL (ms : List MemberData) : Nat :=
  ms.countP (fun m => m.isVoter && (m.up || m.isSelf))

/-- Whether a majority of the vote weight is still seen up: the up vote
weight is at least ⌊N/2⌋ + 1 (spec 4.2). -/
def hasMajorityL (ms : List MemberData) : Bool :=
  decide (totalVotesL ms / 2 + 1 ≤ upVotesL ms)

/-- Mark the member at an index as down, leaving other entries unchanged. -/
def markDownList : List MemberData → Nat → List MemberData
  | [], _ => []
  | m :: t, 0 => { m with up := false } :: t
  | m :: t, i + 1 => m :: markDownList t i

/-- `setMemberAsDown(now, memberIndex)` (header lines 449-453).  Modelled
from the spec: marks the member entry down and returns true iff the leader
has now lost its majority — the vote weight of the up members including
self has dropped below ⌊N/2⌋ + 1 where N is the total vote weight
(spec 4.2). -/
def setMemberAsDown (s : TopoState) (_now : Nat) (i : Nat) :
    Bool × TopoState :=
  let s2 := { s with members := markDownList s.members i }
  ((s.role == .leader) && !(hasMajorityL s2.members), s2)

/-- Whether a member entry has timed out at `now`: another member, still
seen up, whose lastUpdate + electionTimeout < now (spec 4.3). -/
def timedOut (electionTimeout now : Nat) (m : MemberData) : Bool :=
  !m.isSelf && m.up && decide (m.lastUpdate + electionTimeout < now)

/-- Indices of the members that have timed out at `now`. -/
def timedOutIndices (s : TopoState) (now : Nat) : List Nat :=
  (List.range s.members.length).filter (fun i =>
    match s.members.get? i with
    | some m => timedOut s.electionTimeout now m
    | none => false)

/-- `checkMemberTimeouts(now)` (header lines 462-467).  Modelled from the
spec: mark down every member whose lastUpdate + electionTimeout < now; if
this loses the majority while leader, return StepDownSelf, else
NoAction (spec 4.3). -/
def checkMemberTimeouts (s : TopoState) (now : Nat) :
    HeartbeatResponseAction × TopoState :=
  let idxs := timedOutIndices s now
  let ms2 := idxs.foldl markDownList s.members
  (if s.role = .leader ∧ idxs ≠ [] ∧ hasMajorityL ms2 = false then
    .stepDownSelf
   else .noAction,
   { s with members := ms2 })

/-- Calling `setMemberAsDown` for each index in turn, or-accumulating the
returned stepdown flags (the iteration the spec calls equivalent,
spec 4.3). -/
def iterSetMemberAsDown (now : Nat) :
    List Nat → Bool × TopoState → Bool × TopoState
  | [], acc => acc
  | i :: t, acc =>
      let p := setMemberAsDown acc.2 now i
      iterSetMemberAsDown now t (acc.1 || p.1, p.2)

/-- The iterated form of `checkMemberTimeouts`: fold `setMemberAsDown` over
the timed-out members and report StepDownSelf iff some call returned
true. -/
def checkMemberTimeoutsIter (s : TopoState) (now : Nat) :
    HeartbeatResponseAction × TopoState :=
  let r := iterSetMemberAsDown now (timedOutIndices s now) (false, s)
  (if r.1 = true then .stepDownSelf else .noAction, r.2)

lemma roleModeOK_applyOp (op : TopoOp) (s : TopoState) (h : roleModeOK s) :
    roleModeOK (applyOp op s) := by
  obtain ⟨hiff, hcpi⟩ := h
  have hnl : s.role ≠ .leader → s.leaderMode = .kNotLeader := by
    intro hr
    by_contra hm
    exact hr (hiff.mpr hm)
  cases op with
  | winElection =>
      by_cases hc : s.role = .candidate
      · simp only [applyOp, if_pos hc]
        exact ⟨by simp, fun _ => rfl⟩
      · simp only [applyOp, if_neg hc]
        exact ⟨hiff, hcpi⟩
  | loseElection =>
      by_cases hc : s.role = .candidate
      · have hm : s.leaderMode = .kNotLeader := by
          refine hnl ?_
          rw [hc]
          decide
        simp only [applyOp, if_pos hc]
        exact ⟨by simp [hm], by simp⟩
      · simp only [applyOp, if_neg hc]
        exact ⟨hiff, hcpi⟩
  | completeTransitionToPrimary fot =>
      by_cases hm : s.leaderMode = .kLeaderElect
      · have hl : s.role = .leader := hiff.mpr (by simp [hm])
        simp only [applyOp, if_pos hm]
        exact ⟨by simp [hl], fun _ => hcpi hl⟩
      · simp only [applyOp, if_neg hm]
        exact ⟨hiff, hcpi⟩
  | prepareForStepDownAttemptOp =>
      by_cases hm : s.leaderMode = .kMaster
      · have hl : s.role = .leader := hiff.mpr (by simp [hm])
        simp only [applyOp, if_pos hm]
        exact ⟨by simp [hl], hcpi⟩
      · simp only [applyOp, if_neg hm]
        exact ⟨hiff, hcpi⟩
  | abortAttemptedStepDownOp =>
      by_cases hm : s.leaderMode = .kAttemptingStepDown
      · have hl : s.role = .leader := hiff.mpr (by simp [hm])
        simp only [applyOp, if_pos hm]
        exact ⟨by simp [hl], hcpi⟩
      · simp only [applyOp, if_neg hm]
        exact ⟨hiff, hcpi⟩
  | prepareForUnconditionalStepDownOp =>
      by_cases hm : s.leaderMode = .kLeaderElect ∨ s.leaderMode = .kMaster ∨
          s.leaderMode = .kAttemptingStepDown
      · have hl : s.role = .leader := by
          refine hiff.mpr ?_
          rcases hm with hm | hm | hm <;> simp [hm]
        simp only [applyOp, if_pos hm]
        exact ⟨by simp [hl], hcpi⟩
      · simp only [applyOp, if_neg hm]
        exact ⟨hiff, hcpi⟩
  | finishUnconditionalStepDownOp =>
      by_cases hm : s.leaderMode = .kSteppingDown
      · simp only [applyOp, if_pos hm]
        exact ⟨by simp, by simp⟩
      · simp only [applyOp, if_neg hm]
        exact ⟨hiff, hcpi⟩
  | attemptStepDownOp t now w u f =>
      by_cases h1 : s.leaderMode ≠ .kAttemptingStepDown
      · simp only [applyOp, attemptStepDown, if_pos h1]
        exact ⟨hiff, hcpi⟩
      · by_cases h2 : u ≤ now ∨ s.term ≠ t
        · simp only [applyOp, attemptStepDown, if_neg h1, if_pos h2]
          exact ⟨hiff, hcpi⟩
        · by_cases h3 : (f = true ∧ w < now) ∨ isSafeToStepDown s = true
          · simp only [applyOp, attemptStepDown, if_neg h1, if_neg h2, if_pos h3]
            exact ⟨by simp, by simp⟩
          · simp only [applyOp, attemptStepDown, if_neg h1, if_neg h2, if_neg h3]
            exact ⟨hiff, hcpi⟩
  | becomeCandidateOp now =>
      by_cases hc : s.role = .follower ∧ s.electionSleepUntil ≤ now
      · have hm : s.leaderMode = .kNotLeader := by
          refine hnl ?_
          rw [hc.1]
          decide
        simp only [applyOp, if_pos hc]
        exact ⟨by simp [hm], by simp⟩
      · simp only [applyOp, if_neg hc]
        exact ⟨hiff, hcpi⟩
  | observePrimaryOp idx =>
      by_cases hc : s.role = .follower
      · simp only [applyOp, if_pos hc]
        refine ⟨hiff, fun hl => ?_⟩
        exact absurd (hc.symm.trans hl) (by decide)
      · simp only [applyOp, if_neg hc]
        exact ⟨hiff, hcpi⟩
  | updateTermOp t now =>
      by_cases ht : t ≤ s.term
      · simp only [applyOp, updateTerm, if_pos ht]
        exact ⟨hiff, hcpi⟩
      · by_cases hl : s.role = .leader
        · simp only [applyOp, updateTerm, if_neg ht, if_pos hl]
          exact ⟨hiff, hcpi⟩
        · simp only [applyOp, updateTerm, if_neg ht, if_neg hl]
          exact ⟨hiff, hcpi⟩

lemma reachable_roleModeOK {s0 s : TopoState} (h0 : initOK s0)
    (h : Reachable s0 s) : roleModeOK s := by
  induction h with
  | refl =>
      refine ⟨?_, ?_⟩
      · rw [h0.1, h0.2]
        simp
      · intro hl
        rw [h0.1] at hl
        exact absurd hl (by decide)
  | step op _ ih => exact roleModeOK_applyOp op _ ih

lemma reachable_leaderElectState : Reachable baseState leaderElectState :=
  Reachable.step .winElection (Reachable.step (.becomeCandidateOp 0) Reachable.refl)

lemma reachable_masterState : Reachable baseState masterState :=
  Reachable.step (.completeTransitionToPrimary ⟨1, 5⟩) reachable_leaderElectState

/-- Claim C1: `canAcceptWrites()` returns true iff Role = leader and
LeaderMode = kMaster; and in every state reachable from a freshly started
coordinator, if `canAcceptWrites()` holds then the current primary index is
this node's own index. -/
theorem claim_C1 (s0 s : TopoState) (h0 : initOK s0) (h : Reachable s0 s) :
    (canAcceptWrites s = true ↔ s.role = .leader ∧ s.leaderMode = .kMaster) ∧
    (canAcceptWrites s = true → s.currentPrimaryIndex = s.selfIndex) := by
  have hinv := reachable_roleModeOK h0 h
  have hiff : canAcceptWrites s = true ↔
      s.role = .leader ∧ s.leaderMode = .kMaster := by
    simp [canAcceptWrites]
  refine ⟨hiff, fun hw => ?_⟩
  exact hinv.2 (hiff.mp hw).1

/-- Claim C1 witness: a concrete reachable state in which writes are
accepted, obtained by standing for election, winning it, and completing the
transition to primary. -/
theorem claim_C1_witness :
    initOK baseState ∧ canAcceptWrites masterState = true ∧
      masterState.currentPrimaryIndex = masterState.selfIndex :=
  ⟨⟨rfl, rfl⟩, by decide,
    (claim_C1 baseState masterState ⟨rfl, rfl⟩ reachable_masterState).2
      (by decide)⟩

/-- Claim C2 counterexample: from a freshly started coordinator the
operations become-candidate, win-election reach a state with
LeaderMode = kLeaderElect, and `prepareForUnconditionalStepDown` (header
lines 599-606) then moves LeaderMode directly to kSteppingDown — a
transition the claim's list does not contain (the header's diagram, lines
74-95, does). -/
theorem claim_C2_counterexample :
    initOK baseState ∧
    Reachable baseState leaderElectState ∧
    leaderElectState.leaderMode = .kLeaderElect ∧
    (applyOp .prepareForUnconditionalStepDownOp leaderElectState).leaderMode =
      .kSteppingDown ∧
    claimedLeaderModeEdge .kLeaderElect .kSteppingDown = false :=
  ⟨⟨rfl, rfl⟩, reachable_leaderElectState, by decide, by decide, by decide⟩

/-- Claim C2 (amended): over every sequence of operations from a freshly
started coordinator, each step either leaves LeaderMode unchanged or makes
one of the transitions: not-leader to leader-elect, leader-elect to master,
master to attempting-step-down and back, master or attempting-step-down to
stepping-down, stepping-down or attempting-step-down to not-leader, or
(the amendment) leader-elect to stepping-down. -/
theorem claim_C2 (s0 s : TopoState) (h0 : initOK s0) (h : Reachable s0 s)
    (op : TopoOp) :
    (applyOp op s).leaderMode = s.leaderMode ∨
      amendedLeaderModeEdge s.leaderMode (applyOp op s).leaderMode = true := by
  have hinv := reachable_roleModeOK h0 h
  have hnl : s.role ≠ .leader → s.leaderMode = .kNotLeader := by
    intro hr
    by_contra hm
    exact hr (hinv.1.mpr hm)
  cases op with
  | winElection =>
      by_cases hc : s.role = .candidate
      · have hm : s.leaderMode = .kNotLeader := by
          refine hnl ?_
          rw [hc]
          decide
        right
        simp only [applyOp, if_pos hc]
        rw [hm]
        decide
      · left
        simp only [applyOp, if_neg hc]
  | loseElection =>
      left
      by_cases hc : s.role = .candidate
      · simp only [applyOp, if_pos hc]
      · simp only [applyOp, if_neg hc]
  | completeTransitionToPrimary fot =>
      by_cases hm : s.leaderMode = .kLeaderElect
      · right
        simp only [applyOp, if_pos hm]
        rw [hm]
        decide
      · left
        simp only [applyOp, if_neg hm]
  | prepareForStepDownAttemptOp =>
      by_cases hm : s.leaderMode = .kMaster
      · right
        simp only [applyOp, if_pos hm]
        rw [hm]
        decide
      · left
        simp only [applyOp, if_neg hm]
  | abortAttemptedStepDownOp =>
      by_cases hm : s.leaderMode = .kAttemptingStepDown
      · right
        simp only [applyOp, if_pos hm]
        rw [hm]
        decide
      · left
        simp only [applyOp, if_neg hm]
  | prepareForUnconditionalStepDownOp =>
      by_cases hm : s.leaderMode = .kLeaderElect ∨ s.leaderMode = .kMaster ∨
          s.leaderMode = .kAttemptingStepDown
      · right
        simp only [applyOp, if_pos hm]
        rcases hm with hm | hm | hm <;> rw [hm] <;> decide
      · left
        simp only [applyOp, if_neg hm]
  | finishUnconditionalStepDownOp =>
      by_cases hm : s.leaderMode = .kSteppingDown
      · right
        simp only [applyOp, if_pos hm]
        rw [hm]
        decide
      · left
        simp only [applyOp, if_neg hm]
  | attemptStepDownOp t now w u f =>
      by_cases h1 : s.leaderMode ≠ .kAttemptingStepDown
      · left
        simp only [applyOp, attemptStepDown, if_pos h1]
      · by_cases h2 : u ≤ now ∨ s.term ≠ t
        · left
          simp only [applyOp, attemptStepDown, if_neg h1, if_pos h2]
        · by_cases h3 : (f = true ∧ w < now) ∨ isSafeToStepDown s = true
          · right
            simp only [applyOp, attemptStepDown, if_neg h1, if_neg h2,
              if_pos h3]
            rw [not_not.mp h1]
            decide
          · left
            simp only [applyOp, attemptStepDown, if_neg h1, if_neg h2,
              if_neg h3]
  | becomeCandidateOp now =>
      left
      by_cases hc : s.role = .follower ∧ s.electionSleepUntil ≤ now
      · simp only [applyOp, if_pos hc]
      · simp only [applyOp, if_neg hc]
  | observePrimaryOp idx =>
      left
      by_cases hc : s.role = .follower
      · simp only [applyOp, if_pos hc]
      · simp only [applyOp, if_neg hc]
  | updateTermOp t now =>
      left
      by_cases ht : t ≤ s.term
      · simp only [applyOp, updateTerm, if_pos ht]
      · by_cases hl : s.role = .leader
        · simp only [applyOp, updateTerm, if_neg ht, if_pos hl]
        · simp only [applyOp, updateTerm, if_neg ht, if_neg hl]

/-- Claim C2 witness: the amended transition theorem applied at the concrete
reachable master state and the operation that begins a stepdown attempt. -/
theorem claim_C2_witness :
    initOK baseState ∧
      ((applyOp .prepareForStepDownAttemptOp masterState).leaderMode =
          masterState.leaderMode ∨
        amendedLeaderModeEdge masterState.leaderMode
          (applyOp .prepareForStepDownAttemptOp masterState).leaderMode =
          true) :=
  ⟨⟨rfl, rfl⟩, claim_C2 baseState masterState ⟨rfl, rfl⟩ reachable_masterState
    .prepareForStepDownAttemptOp⟩

/-- Claim C7: `updateTerm` is idempotent — calling `updateTerm(t, now)` twice
in succession leaves the coordinator in the same state as calling it once,
and the second call returns kAlreadyUpToDate. -/
theorem claim_C7 (s : TopoState) (t : Int) (now : Nat) :
    updateTerm (updateTerm s t now).2 t now =
      (.kAlreadyUpToDate, (updateTerm s t now).2) := by
  by_cases ht : t ≤ s.term
  · simp [updateTerm, if_pos ht]
  · by_cases hl : s.role = .leader
    · simp [updateTerm, if_neg ht, if_pos hl]
    · simp [updateTerm, if_neg ht, if_neg hl]

/-- Claim C10: `becomeCandidateIfStepdownPeriodOverAndSingleNodeSet(now)`
transitions the node to candidate role and returns true exactly when the
configuration is a single-node set and now is past the stepdown (freeze)
period; otherwise it returns false and leaves the state unchanged. -/
theorem claim_C10 (s : TopoState) (now : Nat) :
    ((becomeCandidateIfStepdownPeriodOverAndSingleNodeSet s now).1 = true ↔
      (s.electionSleepUntil ≤ now ∧ s.members.length = 1)) ∧
    ((becomeCandidateIfStepdownPeriodOverAndSingleNodeSet s now).1 = true →
      (becomeCandidateIfStepdownPeriodOverAndSingleNodeSet s now).2 =
        { s with role := .candidate }) ∧
    ((becomeCandidateIfStepdownPeriodOverAndSingleNodeSet s now).1 = false →
      (becomeCandidateIfStepdownPeriodOverAndSingleNodeSet s now).2 = s) := by
  by_cases hc : s.electionSleepUntil ≤ now ∧ s.members.length = 1
  · refine ⟨?_, ?_, ?_⟩ <;>
      simp [becomeCandidateIfStepdownPeriodOverAndSingleNodeSet, if_pos hc,
        hc.1, hc.2]
  · refine ⟨?_, ?_, ?_⟩ <;>
      simp [becomeCandidateIfStepdownPeriodOverAndSingleNodeSet, if_neg hc, hc]

/-- Claim C10 witness: in the concrete single-node state with the stepdown
period over, the node becomes candidate and the call returns true. -/
theorem claim_C10_witness :
    (becomeCandidateIfStepdownPeriodOverAndSingleNodeSet singleNodeState 5).1 =
      true ∧
    (becomeCandidateIfStepdownPeriodOverAndSingleNodeSet singleNodeState 5).2 =
      { singleNodeState with role := .candidate } := by
  have h := claim_C10 singleNodeState 5
  have h1 := h.1.mpr ⟨by decide, by decide⟩
  exact ⟨h1, h.2.1 h1⟩

lemma OpTime.leB_refl (a : OpTime) : OpTime.leB a a = true := by
  simp [OpTime.leB]

lemma OpTime.leB_total (a b : OpTime) :
    OpTime.leB a b = true ∨ OpTime.leB b a = true := by
  simp only [OpTime.leB, Bool.or_eq_true, Bool.and_eq_true, decide_eq_true_eq,
    beq_iff_eq]
  omega

lemma OpTime.leB_trans {a b c : OpTime} (h1 : OpTime.leB a b = true)
    (h2 : OpTime.leB b c = true) : OpTime.leB a c = true := by
  simp only [OpTime.leB, Bool.or_eq_true, Bool.and_eq_true, decide_eq_true_eq,
    beq_iff_eq] at h1 h2 ⊢
  omega

lemma insertDesc_perm (x : OpTime) (l : List OpTime) :
    List.Perm (insertDesc x l) (x :: l) := by
  induction l with
  | nil => simp [insertDesc]
  | cons y t ih =>
      by_cases h : OpTime.leB y x = true
      · simp [insertDesc, h]
      · simp only [insertDesc, if_neg h]
        exact (ih.cons y).trans (List.Perm.swap x y t)

lemma sortDesc_perm (l : List OpTime) : List.Perm (sortDesc l) l := by
  induction l with
  | nil => simp [sortDesc]
  | cons x t ih => exact (insertDesc_perm x (sortDesc t)).trans (ih.cons x)

lemma mem_insertDesc {x z : OpTime} {l : List OpTime}
    (h : z ∈ insertDesc x l) : z = x ∨ z ∈ l := by
  have h2 := (insertDesc_perm x l).mem_iff.mp h
  simpa using h2

lemma descSorted_insertDesc {x : OpTime} {l : List OpTime}
    (hs : DescSorted l) : DescSorted (insertDesc x l) := by
  induction l with
  | nil => simp [insertDesc]
  | cons y t ih =>
      obtain ⟨hy, ht⟩ := List.pairwise_cons.mp hs
      by_cases h : OpTime.leB y x = true
      · simp only [insertDesc, if_pos h]
        refine List.Pairwise.cons ?_ hs
        intro z hz
        rcases List.mem_cons.mp hz with rfl | hz
        · exact h
        · exact OpTime.leB_trans (hy z hz) h
      · simp only [insertDesc, if_neg h]
        refine List.Pairwise.cons ?_ (ih ht)
        intro z hz
        rcases mem_insertDesc hz with rfl | hz
        · rcases OpTime.leB_total z y with h2 | h2
          · exact h2
          · exact absurd h2 h
        · exact hy z hz

lemma sortDesc_sorted (l : List OpTime) : DescSorted (sortDesc l) := by
  induction l with
  | nil => simp [sortDesc]
  | cons x t ih => exact descSorted_insertDesc ih

lemma descSorted_get_count : ∀ (l : List OpTime) (k : Nat) (c : OpTime),
    DescSorted l → l.get? k = some c →
    k + 1 ≤ l.countP (fun o => OpTime.leB c o)
  | [], _, _, _, hk => by simp at hk
  | x :: t, 0, c, _, hk => by
      have hx : x = c := by simpa using hk
      subst hx
      rw [List.countP_cons]
      simp [OpTime.leB_refl]
  | x :: t, k + 1, c, hs, hk => by
      have hk2 : t.get? k = some c := by simpa using hk
      obtain ⟨hy, ht⟩ := List.pairwise_cons.mp hs
      have ih := descSorted_get_count t k c ht hk2
      have hcx : OpTime.leB c x = true := hy c (List.get?_mem hk2)
      rw [List.countP_cons]
      simp only [hcx, if_pos]
      omega

lemma votingOpTimes_length (s : TopoState) :
    (votingOpTimes s).length = voterCount s := by
  simp [votingOpTimes, voterCount]

/-- Claim C3: `updateLastCommittedOpTime()` picks the element `c` at index
⌊N/2⌋ of the descending sort of the voting members' applied (or durable, per
`writeConcernMajorityJournalDefault`) opTimes, returns true and sets
`lastCommittedOpTime` to `c` exactly when `c` is in the current term,
strictly greater than the current `lastCommittedOpTime`, and at least
`firstOpTimeOfTerm` while leader; otherwise it returns false and leaves the
state unchanged.  The picked element is an opTime that at least a majority
of the N voters has reached. -/
theorem claim_C3 (s : TopoState) (c : OpTime)
    (hc : (sortDesc (votingOpTimes s)).get? ((votingOpTimes s).length / 2) =
      some c) :
    ((updateLastCommittedOpTime s).1 = true ↔
      (c.term = s.term ∧ OpTime.ltB s.lastCommittedOpTime c = true ∧
        (s.role = .leader → OpTime.leB s.firstOpTimeOfTerm c = true))) ∧
    ((updateLastCommittedOpTime s).1 = true →
      (updateLastCommittedOpTime s).2 = { s with lastCommittedOpTime := c }) ∧
    ((updateLastCommittedOpTime s).1 = false →
      (updateLastCommittedOpTime s).2 = s) ∧
    majorityVoterCount s ≤ (votingOpTimes s).countP (fun o => OpTime.leB c o) := by
  have h1 := descSorted_get_count (sortDesc (votingOpTimes s))
    ((votingOpTimes s).length / 2) c (sortDesc_sorted _) hc
  have h2 : (sortDesc (votingOpTimes s)).countP (fun o => OpTime.leB c o) =
      (votingOpTimes s).countP (fun o => OpTime.leB c o) :=
    (sortDesc_perm (votingOpTimes s)).countP_eq _
  have hlen := votingOpTimes_length s
  have hmaj : majorityVoterCount s ≤
      (votingOpTimes s).countP (fun o => OpTime.leB c o) := by
    rw [majorityVoterCount]
    omega
  have hdef : updateLastCommittedOpTime s =
      (if c.term = s.term ∧ OpTime.ltB s.lastCommittedOpTime c = true ∧
          (s.role = .leader → OpTime.leB s.firstOpTimeOfTerm c = true) then
        (true, { s with lastCommittedOpTime := c })
      else (false, s)) := by
    simp only [updateLastCommittedOpTime]
    rw [hc]
  by_cases hcond : c.term = s.term ∧ OpTime.ltB s.lastCommittedOpTime c = true ∧
      (s.role = .leader → OpTime.leB s.firstOpTimeOfTerm c = true)
  · rw [hdef, if_pos hcond]
    exact ⟨iff_of_true rfl hcond, fun _ => rfl, by simp, hmaj⟩
  · rw [hdef, if_neg hcond]
    exact ⟨iff_of_false (by simp) hcond, by simp, fun _ => rfl, hmaj⟩

/-- Claim C3 witness: on the five-voter scenario state the commit calculator
picks (2,9), returns true, and advances `lastCommittedOpTime` to (2,9). -/
theorem claim_C3_witness :
    (sortDesc (votingOpTimes commitState)).get?
      ((votingOpTimes commitState).length / 2) = some ⟨2, 9⟩ ∧
    (updateLastCommittedOpTime commitState).1 = true ∧
    (updateLastCommittedOpTime commitState).2 =
      { commitState with lastCommittedOpTime := ⟨2, 9⟩ } := by
  have h := claim_C3 commitState ⟨2, 9⟩ (by decide)
  have htrue := h.1.mpr ⟨by decide, by decide, fun _ => by decide⟩
  exact ⟨by decide, htrue, h.2.1 htrue⟩

lemma isSafeToStepDown_iff (s : TopoState) :
    isSafeToStepDown s = true ↔
      (majorityVoterCount s ≤ (caughtUpVoters s).length ∧
        ∃ m ∈ caughtUpVoters s, m.isSelf = false ∧ m.electable = true) := by
  simp [isSafeToStepDown, List.any_eq_true]

/-- Claim C4: with a stepdown attempt in flight, `attemptStepDown` throws
exactly when now ≥ stepDownUntil or the term changed from termAtStart;
otherwise it returns true exactly when force holds and now > waitUntil, or a
majority of voting members have caught up to our lastApplied opTime and one
caught-up member besides self is electable; on success LeaderMode goes to
not-leader, Role to follower, and the freeze deadline becomes
now + stepDownUntil; otherwise it returns false with the state unchanged. -/
theorem claim_C4 (s : TopoState) (termAtStart : Int)
    (now waitUntil stepDownUntil : Nat) (force : Bool)
    (hmode : s.leaderMode = .kAttemptingStepDown) :
    ((∃ e, attemptStepDown s termAtStart now waitUntil stepDownUntil force =
        .error e) ↔ (stepDownUntil ≤ now ∨ s.term ≠ termAtStart)) ∧
    (now < stepDownUntil → s.term = termAtStart →
      ((attemptStepDown s termAtStart now waitUntil stepDownUntil force =
          .ok (true, { s with
            role := .follower
            leaderMode := .kNotLeader
            currentPrimaryIndex := -1
            electionSleepUntil := now + stepDownUntil }) ↔
        ((force = true ∧ waitUntil < now) ∨
          (majorityVoterCount s ≤ (caughtUpVoters s).length ∧
            ∃ m ∈ caughtUpVoters s, m.isSelf = false ∧ m.electable = true))) ∧
      (¬((force = true ∧ waitUntil < now) ∨
          (majorityVoterCount s ≤ (caughtUpVoters s).length ∧
            ∃ m ∈ caughtUpVoters s, m.isSelf = false ∧ m.electable = true)) →
        attemptStepDown s termAtStart now waitUntil stepDownUntil force =
          .ok (false, s)))) := by
  have h1 : ¬(s.leaderMode ≠ .kAttemptingStepDown) := by simp [hmode]
  by_cases h2 : stepDownUntil ≤ now ∨ s.term ≠ termAtStart
  · constructor
    · simp only [attemptStepDown, if_neg h1, if_pos h2]
      exact iff_of_true ⟨.deadlineOrTermChanged, rfl⟩ h2
    · intro hnow hterm
      rcases h2 with h2 | h2
      · omega
      · exact absurd hterm h2
  · constructor
    · simp only [attemptStepDown, if_neg h1, if_neg h2]
      refine iff_of_false ?_ h2
      rintro ⟨e, he⟩
      by_cases h3 : (force = true ∧ waitUntil < now) ∨ isSafeToStepDown s = true
      · rw [if_pos h3] at he
        exact Except.noConfusion he
      · rw [if_neg h3] at he
        exact Except.noConfusion he
    · intro _ _
      constructor
      · by_cases h3 : (force = true ∧ waitUntil < now) ∨ isSafeToStepDown s = true
        · simp only [attemptStepDown, if_neg h1, if_neg h2, if_pos h3]
          refine iff_of_true trivial ?_
          rcases h3 with h3 | h3
          · exact Or.inl h3
          · exact Or.inr ((isSafeToStepDown_iff s).mp h3)
        · simp only [attemptStepDown, if_neg h1, if_neg h2, if_neg h3]
          refine iff_of_false ?_ ?_
          · intro he
            simp at he
          · rintro (hf | hsafe)
            · exact h3 (Or.inl hf)
            · exact h3 (Or.inr ((isSafeToStepDown_iff s).mpr hsafe))
      · intro hno
        have h3 : ¬((force = true ∧ waitUntil < now) ∨ isSafeToStepDown s = true) := by
          rintro (hf | hsafe)
          · exact hno (Or.inl hf)
          · exact hno (Or.inr ((isSafeToStepDown_iff s).mp hsafe))
        simp only [attemptStepDown, if_neg h1, if_neg h2, if_neg h3]

/-- Claim C4 witness: on the concrete attempting state, where every voting
member has caught up and the peers are electable, a non-forced stepdown
attempt before the deadline succeeds and installs the follower state with
the freeze deadline now + stepDownUntil. -/
theorem claim_C4_witness :
    attemptingState.leaderMode = .kAttemptingStepDown ∧
    attemptStepDown attemptingState 1 10 5 100 false =
      .ok (true, { attemptingState with
        role := .follower
        leaderMode := .kNotLeader
        currentPrimaryIndex := -1
        electionSleepUntil := 110 }) := by
  have h := claim_C4 attemptingState 1 10 5 100 false (by decide)
  refine ⟨by decide, ?_⟩
  exact ((h.2 (by decide) (by decide)).1).mpr
    (Or.inr ⟨by decide, wMember 1 false ⟨1, 5⟩, by decide, by decide, by decide⟩)

/-- Claim C6 (amended): `shouldChangeSyncSource` returns true exactly when
the current source is no longer in the config, is blacklisted, is down,
lags some syncable candidate by more than `maxSyncSourceLagSecs`, or, under
protocol version 1, is not itself primary, has no sync source, and reports
an opTime ≤ our last applied opTime (all three together, per the interface
comment); and false otherwise. -/
theorem claim_C6 (s : TopoState) (currentSource : Nat)
    (md : SyncSourceMetadata) (now : Nat) :
    shouldChangeSyncSource s currentSource md now = true ↔
      (findMemberByHost s currentSource = none ∨
       isBlacklisted s currentSource now = true ∨
       (∃ m, findMemberByHost s currentSource = some m ∧ m.up = false) ∨
       (s.protocolVersion = 1 ∧ md.sourceIsPrimary = false ∧
         md.sourceHasSyncSource = false ∧
         OpTime.leB md.sourceOpTime (myLastApplied s) = true) ∨
       (∃ c ∈ s.members, syncableCandidate s now c = true ∧
         md.sourceOpTime.ts + s.maxSyncSourceLagSecs < c.hbApplied.ts)) := by
  cases hfind : findMemberByHost s currentSource with
  | none => simp [shouldChangeSyncSource, hfind]
  | some m =>
      simp only [shouldChangeSyncSource, hfind, Bool.or_eq_true,
        Bool.and_eq_true, Bool.not_eq_true', beq_iff_eq, decide_eq_true_eq,
        List.any_eq_true, Option.some.injEq, reduceCtorEq, false_or,
        exists_eq_left']
      tauto

/-- Claim C6 counterexample: the current source is in the config, up, not
blacklisted, not lagging behind any candidate; protocol version is 1, the
source is not primary and has no sync source — so the claim's disjunctive
v1 condition holds — yet its reported opTime (1,9) is ahead of our last
applied (1,5), and `shouldChangeSyncSource` returns false. -/
theorem claim_C6_counterexample :
    findMemberByHost syncSourceCexState 1 = some (wMember 1 false ⟨1, 5⟩) ∧
    (wMember 1 false ⟨1, 5⟩).up = true ∧
    isBlacklisted syncSourceCexState 1 0 = false ∧
    (syncSourceCexState.members.any (fun c =>
      syncableCandidate syncSourceCexState 0 c &&
      decide (syncSourceCexMd.sourceOpTime.ts +
        syncSourceCexState.maxSyncSourceLagSecs < c.hbApplied.ts))) = false ∧
    syncSourceCexState.protocolVersion = 1 ∧
    syncSourceCexMd.sourceIsPrimary = false ∧
    (syncSourceCexMd.sourceHasSyncSource = false ∨
      OpTime.leB syncSourceCexMd.sourceOpTime
        (myLastApplied syncSourceCexState) = true) ∧
    shouldChangeSyncSource syncSourceCexState 1 syncSourceCexMd 0 = false := by
  decide

lemma latestKnownAux_spec (l : List MemberData) : ∀ (acc : OpTime),
    (latestKnownAux l acc = none ↔
      ∃ m ∈ l, m.isSelf = false ∧ m.updatedSinceRestart = false) ∧
    (∀ v, latestKnownAux l acc = some v →
      (OpTime.leB acc v = true ∧
       (∀ m ∈ l, m.isSelf = false → m.up = true →
         OpTime.leB m.hbApplied v = true) ∧
       (v = acc ∨ ∃ m ∈ l, m.isSelf = false ∧ m.up = true ∧
         m.hbApplied = v))) := by
  induction l with
  | nil =>
      intro acc
      refine ⟨by simp [latestKnownAux], ?_⟩
      intro v hv
      have hva : acc = v := by simpa [latestKnownAux] using hv
      subst hva
      exact ⟨OpTime.leB_refl acc, by simp, Or.inl rfl⟩
  | cons m t ih =>
      intro acc
      by_cases hself : m.isSelf = true
      · have hstep : latestKnownAux (m :: t) acc = latestKnownAux t acc := by
          simp [latestKnownAux, hself]
        refine ⟨?_, ?_⟩
        · rw [hstep, (ih acc).1]
          simp [hself]
        · intro v hv
          rw [hstep] at hv
          obtain ⟨hle, hbound, hatt⟩ := (ih acc).2 v hv
          refine ⟨hle, ?_, ?_⟩
          · intro x hx h1 h2
            rcases List.mem_cons.mp hx with rfl | hx
            · rw [hself] at h1
              exact absurd h1 (by decide)
            · exact hbound x hx h1 h2
          · rcases hatt with h | ⟨x, hx, h1, h2, h3⟩
            · exact Or.inl h
            · exact Or.inr ⟨x, List.mem_cons_of_mem m hx, h1, h2, h3⟩
      · have hself2 : m.isSelf = false := by simpa using hself
        by_cases hupd : m.updatedSinceRestart = false
        · have hstep : latestKnownAux (m :: t) acc = none := by
            simp [latestKnownAux, hself2, hupd]
          refine ⟨?_, ?_⟩
          · rw [hstep]
            exact iff_of_true rfl ⟨m, List.mem_cons_self m t, hself2, hupd⟩
          · intro v hv
            rw [hstep] at hv
            exact Option.noConfusion hv
        · have hupd2 : m.updatedSinceRestart = true := by simpa using hupd
          by_cases hup : m.up = false
          · have hstep : latestKnownAux (m :: t) acc = latestKnownAux t acc := by
              simp [latestKnownAux, hself2, hupd2, hup]
            refine ⟨?_, ?_⟩
            · rw [hstep, (ih acc).1]
              simp [hupd2]
            · intro v hv
              rw [hstep] at hv
              obtain ⟨hle, hbound, hatt⟩ := (ih acc).2 v hv
              refine ⟨hle, ?_, ?_⟩
              · intro x hx h1 h2
                rcases List.mem_cons.mp hx with rfl | hx
                · rw [hup] at h2
                  exact absurd h2 (by decide)
                · exact hbound x hx h1 h2
              · rcases hatt with h | ⟨x, hx, h1, h2, h3⟩
                · exact Or.inl h
                · exact Or.inr ⟨x, List.mem_cons_of_mem m hx, h1, h2, h3⟩
          · have hup2 : m.up = true := by simpa using hup
            by_cases hcmp : OpTime.leB acc m.hbApplied = true
            · have hstep : latestKnownAux (m :: t) acc =
                  latestKnownAux t m.hbApplied := by
                simp [latestKnownAux, hself2, hupd2, hup2, hcmp]
              refine ⟨?_, ?_⟩
              · rw [hstep, (ih m.hbApplied).1]
                simp [hupd2]
              · intro v hv
                rw [hstep] at hv
                obtain ⟨hle, hbound, hatt⟩ := (ih m.hbApplied).2 v hv
                refine ⟨OpTime.leB_trans hcmp hle, ?_, ?_⟩
                · intro x hx h1 h2
                  rcases List.mem_cons.mp hx with rfl | hx
                  · exact hle
                  · exact hbound x hx h1 h2
                · rcases hatt with h | ⟨x, hx, h1, h2, h3⟩
                  · exact Or.inr ⟨m, List.mem_cons_self m t, hself2, hup2, h.symm⟩
                  · exact Or.inr ⟨x, List.mem_cons_of_mem m hx, h1, h2, h3⟩
            · have hacc : OpTime.leB m.hbApplied acc = true := by
                rcases OpTime.leB_total acc m.hbApplied with h | h
                · exact absurd h hcmp
                · exact h
              have hstep : latestKnownAux (m :: t) acc = latestKnownAux t acc := by
                simp [latestKnownAux, hself2, hupd2, hup2, hcmp]
              refine ⟨?_, ?_⟩
              · rw [hstep, (ih acc).1]
                simp [hupd2]
              · intro v hv
                rw [hstep] at hv
                obtain ⟨hle, hbound, hatt⟩ := (ih acc).2 v hv
                refine ⟨hle, ?_, ?_⟩
                · intro x hx h1 h2
                  rcases List.mem_cons.mp hx with rfl | hx
                  · exact OpTime.leB_trans hacc hle
                  · exact hbound x hx h1 h2
                · rcases hatt with h | ⟨x, hx, h1, h2, h3⟩
                  · exact Or.inl h
                  · exact Or.inr ⟨x, List.mem_cons_of_mem m hx, h1, h2, h3⟩

/-- Claim C8: `latestKnownOpTimeSinceHeartbeatRestart()` returns none iff
some other member has not responded to a heartbeat since heartbeats were
last restarted; otherwise the returned opTime bounds every up member's
heartbeat opTime from above and is either attained by one of them or is
OpTime(0,0); in particular it is OpTime(0,0) when every other member is
down. -/
theorem claim_C8 (s : TopoState) :
    (latestKnownOpTimeSinceHeartbeatRestart s = none ↔
      ∃ m ∈ s.members, m.isSelf = false ∧ m.updatedSinceRestart = false) ∧
    (∀ v, latestKnownOpTimeSinceHeartbeatRestart s = some v →
      ((∀ m ∈ s.members, m.isSelf = false → m.up = true →
          OpTime.leB m.hbApplied v = true) ∧
        (v = OpTime.zero ∨
          ∃ m ∈ s.members, m.isSelf = false ∧ m.up = true ∧
            m.hbApplied = v))) ∧
    ((∀ m ∈ s.members, m.isSelf = false → m.updatedSinceRestart = true) →
      (∀ m ∈ s.members, m.isSelf = false → m.up = false) →
      latestKnownOpTimeSinceHeartbeatRestart s = some OpTime.zero) := by
  have haux := latestKnownAux_spec s.members OpTime.zero
  refine ⟨haux.1, ?_, ?_⟩
  · intro v hv
    obtain ⟨_, hbound, hatt⟩ := haux.2 v hv
    exact ⟨hbound, hatt⟩
  · intro hupd hdown
    cases hres : latestKnownOpTimeSinceHeartbeatRestart s with
    | none =>
        obtain ⟨m, hm, h1, h2⟩ := haux.1.mp hres
        rw [hupd m hm h1] at h2
        exact absurd h2 (by decide)
    | some v =>
        obtain ⟨_, _, hatt⟩ := haux.2 v hres
        rcases hatt with rfl | ⟨m, hm, h1, h2, _⟩
        · rfl
        · rw [hdown m hm h1] at h2
          exact absurd h2 (by decide)

/-- Claim C8 witness: on the concrete base state, where both peers are up
and fresh with heartbeat opTime (1,5), the scan returns (1,5) and the bound
of the theorem holds at it. -/
theorem claim_C8_witness :
    latestKnownOpTimeSinceHeartbeatRestart baseState = some ⟨1, 5⟩ ∧
    (∀ m ∈ baseState.members, m.isSelf = false → m.up = true →
      OpTime.leB m.hbApplied ⟨1, 5⟩ = true) :=
  ⟨by decide, ((claim_C8 baseState).2.1 ⟨1, 5⟩ (by decide)).1⟩

lemma stalestAux_spec (l : List MemberData) : ∀ (i : Nat) (acc : Int × Nat),
    (stalestAux l i acc = acc ∧
      ∀ x ∈ l, x.isSelf = false → x.up = true → acc.2 ≤ x.lastUpdate) ∨
    (∃ k m0, l.get? k = some m0 ∧ m0.isSelf = false ∧ m0.up = true ∧
      stalestAux l i acc = (Int.ofNat (i + k), m0.lastUpdate) ∧
      m0.lastUpdate < acc.2 ∧
      ∀ x ∈ l, x.isSelf = false → x.up = true →
        m0.lastUpdate ≤ x.lastUpdate) := by
  induction l with
  | nil =>
      intro i acc
      exact Or.inl ⟨rfl, by simp⟩
  | cons m t ih =>
      intro i acc
      by_cases hskip : m.isSelf = true ∨ m.up = false
      · have hstep : stalestAux (m :: t) i acc = stalestAux t (i + 1) acc := by
          simp [stalestAux, hskip]
        have hnotlive : ∀ (p : Prop), m.isSelf = false → m.up = true → p →
            True := fun _ _ _ _ => trivial
        rcases ih (i + 1) acc with ⟨hres, hges⟩ | ⟨k, m0, hk, h1, h2, hres, hlt, hmin⟩
        · refine Or.inl ⟨hstep.trans hres, ?_⟩
          intro x hx hxs hxu
          rcases List.mem_cons.mp hx with rfl | hx
          · rcases hskip with h | h
            · rw [hxs] at h
              exact absurd h (by decide)
            · rw [hxu] at h
              exact absurd h (by decide)
          · exact hges x hx hxs hxu
        · refine Or.inr ⟨k + 1, m0, by simpa using hk, h1, h2, ?_, hlt, ?_⟩
          · rw [hstep, hres]
            have harith : i + 1 + k = i + (k + 1) := by omega
            rw [harith]
          · intro x hx hxs hxu
            rcases List.mem_cons.mp hx with rfl | hx
            · rcases hskip with h | h
              · rw [hxs] at h
                exact absurd h (by decide)
              · rw [hxu] at h
                exact absurd h (by decide)
            · exact hmin x hx hxs hxu
      · have hself : m.isSelf = false := by
          rcases Bool.eq_false_or_eq_true m.isSelf with h | h
          · exact absurd (Or.inl h) hskip
          · exact h
        have hup : m.up = true := by
          rcases Bool.eq_false_or_eq_true m.up with h | h
          · exact h
          · exact absurd (Or.inr h) hskip
        by_cases hlt : m.lastUpdate < acc.2
        · have hstep : stalestAux (m :: t) i acc =
              stalestAux t (i + 1) (Int.ofNat i, m.lastUpdate) := by
            simp [stalestAux, hskip, hlt]
          rcases ih (i + 1) (Int.ofNat i, m.lastUpdate) with
            ⟨hres, hges⟩ | ⟨k, m0, hk, h1, h2, hres, hlt2, hmin⟩
          · refine Or.inr ⟨0, m, rfl, hself, hup, ?_, hlt, ?_⟩
            · rw [hstep, hres]
              simp
            · intro x hx hxs hxu
              rcases List.mem_cons.mp hx with rfl | hx
              · exact le_refl _
              · exact hges x hx hxs hxu
          · have hlt3 : m0.lastUpdate < m.lastUpdate := hlt2
            refine Or.inr ⟨k + 1, m0, by simpa using hk, h1, h2, ?_,
              lt_trans hlt3 hlt, ?_⟩
            · rw [hstep, hres]
              have harith : i + 1 + k = i + (k + 1) := by omega
              rw [harith]
            · intro x hx hxs hxu
              rcases List.mem_cons.mp hx with rfl | hx
              · exact le_of_lt hlt3
              · exact hmin x hx hxs hxu
        · have hstep : stalestAux (m :: t) i acc = stalestAux t (i + 1) acc := by
            simp [stalestAux, hskip, hlt]
          rcases ih (i + 1) acc with ⟨hres, hges⟩ | ⟨k, m0, hk, h1, h2, hres, hlt2, hmin⟩
          · refine Or.inl ⟨hstep.trans hres, ?_⟩
            intro x hx hxs hxu
            rcases List.mem_cons.mp hx with rfl | hx
            · omega
            · exact hges x hx hxs hxu
          · refine Or.inr ⟨k + 1, m0, by simpa using hk, h1, h2, ?_, hlt2, ?_⟩
            · rw [hstep, hres]
              have harith : i + 1 + k = i + (k + 1) := by omega
              rw [harith]
            · intro x hx hxs hxu
              rcases List.mem_cons.mp hx with rfl | hx
              · omega
              · exact hmin x hx hxs hxu

/-- Claim C9: `getStalestLiveMember()` returns (-1, Date_t::max()) when no
live peers exist; otherwise (for lastUpdate values below the sentinel) it
returns the index of a live peer whose `lastUpdate` is minimal among all
live peers, together with that timestamp. -/
theorem claim_C9 (s : TopoState) :
    ((∀ m ∈ s.members, m.isSelf = false → m.up = false) →
      getStalestLiveMember s = (-1, dateMax)) ∧
    ((∃ m ∈ s.members, m.isSelf = false ∧ m.up = true) →
      (∀ m ∈ s.members, m.lastUpdate < dateMax) →
      ∃ k m0, s.members.get? k = some m0 ∧ m0.isSelf = false ∧
        m0.up = true ∧
        getStalestLiveMember s = (Int.ofNat k, m0.lastUpdate) ∧
        ∀ x ∈ s.members, x.isSelf = false → x.up = true →
          m0.lastUpdate ≤ x.lastUpdate) := by
  have haux := stalestAux_spec s.members 0 (-1, dateMax)
  constructor
  · intro hdead
    rcases haux with ⟨hres, _⟩ | ⟨_, m0, hk, h1, h2, _, _, _⟩
    · exact hres
    · rw [hdead m0 (List.get?_mem hk) h1] at h2
      exact absurd h2 (by decide)
  · rintro ⟨m, hm, h1, h2⟩ hbnd
    rcases haux with ⟨_, hges⟩ | ⟨k, m0, hk, h1', h2', hres, _, hmin⟩
    · have h3 : dateMax ≤ m.lastUpdate := hges m hm h1 h2
      have h4 := hbnd m hm
      omega
    · exact ⟨k, m0, hk, h1', h2', by simpa using hres, hmin⟩

/-- Claim C9 witness: on the concrete state the scan returns index 2 with
timestamp 3, the minimal live peer. -/
theorem claim_C9_witness :
    (∃ k m0, staleState.members.get? k = some m0 ∧ m0.isSelf = false ∧
      m0.up = true ∧
      getStalestLiveMember staleState = (Int.ofNat k, m0.lastUpdate) ∧
      ∀ x ∈ staleState.members, x.isSelf = false → x.up = true →
        m0.lastUpdate ≤ x.lastUpdate) ∧
    getStalestLiveMember staleState = (2, 3) :=
  ⟨(claim_C9 staleState).2 ⟨staleMember 2 false 3, by decide, by decide,
    by decide⟩ (by decide), by decide⟩

lemma markDownList_get? : ∀ (l : List MemberData) (i j : Nat),
    (markDownList l i).get? j =
      if j = i then (l.get? j).map (fun m => { m with up := false })
      else l.get? j
  | [], i, j => by simp [markDownList]
  | m :: t, 0, 0 => by simp [markDownList]
  | m :: t, 0, j + 1 => by simp [markDownList]
  | m :: t, i + 1, 0 => by simp [markDownList]
  | m :: t, i + 1, j + 1 => by
      have ih := markDownList_get? t i j
      simp only [markDownList, List.get?_cons_succ]
      rw [ih]
      by_cases h : j = i
      · rw [if_pos h, if_pos (by omega)]
      · rw [if_neg h, if_neg (by omega)]

lemma totalVotesL_markDownList : ∀ (l : List MemberData) (i : Nat),
    totalVotesL (markDownList l i) = totalVotesL l
  | [], _ => rfl
  | m :: t, 0 => by simp [markDownList, totalVotesL, List.countP_cons]
  | m :: t, i + 1 => by
      simp only [markDownList, totalVotesL, List.countP_cons]
      rw [show (markDownList t i).countP (fun m => m.isVoter) =
        t.countP (fun m => m.isVoter) from totalVotesL_markDownList t i]

lemma upVotesL_markDownList_le : ∀ (l : List MemberData) (i : Nat),
    upVotesL (markDownList l i) ≤ upVotesL l
  | [], _ => le_refl _
  | m :: t, 0 => by
      simp only [markDownList, upVotesL, List.countP_cons]
      cases hv : m.isVoter <;> cases hu : m.up <;> cases hs : m.isSelf <;>
        simp [hv, hu, hs]
  | m :: t, i + 1 => by
      simp only [markDownList, upVotesL, List.countP_cons]
      have ih : upVotesL (markDownList t i) ≤ upVotesL t :=
        upVotesL_markDownList_le t i
      simp only [upVotesL] at ih
      omega

lemma totalVotesL_foldl (idxs : List Nat) : ∀ (ms : List MemberData),
    totalVotesL (idxs.foldl markDownList ms) = totalVotesL ms := by
  induction idxs with
  | nil => intro ms; rfl
  | cons i t ih =>
      intro ms
      rw [List.foldl_cons, ih, totalVotesL_markDownList]

lemma upVotesL_foldl_le (idxs : List Nat) : ∀ (ms : List MemberData),
    upVotesL (idxs.foldl markDownList ms) ≤ upVotesL ms := by
  induction idxs with
  | nil => intro ms; exact le_refl _
  | cons i t ih =>
      intro ms
      rw [List.foldl_cons]
      exact le_trans (ih _) (upVotesL_markDownList_le ms i)

lemma hasMajorityL_foldl_mono (idxs : List Nat) (ms : List MemberData)
    (h : hasMajorityL ms = false) :
    hasMajorityL (idxs.foldl markDownList ms) = false := by
  have h1 := upVotesL_foldl_le idxs ms
  have h2 := totalVotesL_foldl idxs ms
  simp only [hasMajorityL, decide_eq_false_iff_not, not_le] at h ⊢
  omega

lemma iterSetMemberAsDown_snd (now : Nat) : ∀ (idxs : List Nat) (b : Bool)
    (s : TopoState),
    (iterSetMemberAsDown now idxs (b, s)).2 =
      { s with members := idxs.foldl markDownList s.members } := by
  intro idxs
  induction idxs with
  | nil => intro b s; rfl
  | cons i t ih =>
      intro b s
      simp only [iterSetMemberAsDown, setMemberAsDown]
      rw [ih]
      rfl

lemma iterSetMemberAsDown_fst_or (now : Nat) : ∀ (idxs : List Nat) (b : Bool)
    (s : TopoState),
    (iterSetMemberAsDown now idxs (b, s)).1 =
      (b || (iterSetMemberAsDown now idxs (false, s)).1) := by
  intro idxs
  induction idxs with
  | nil => intro b s; simp [iterSetMemberAsDown]
  | cons i t ih =>
      intro b s
      simp only [iterSetMemberAsDown, setMemberAsDown]
      rw [ih (b || _) _, ih (false || _) _]
      cases b <;> simp [Bool.or_assoc]

lemma iterSetMemberAsDown_fst (now : Nat) : ∀ (idxs : List Nat)
    (s : TopoState),
    (iterSetMemberAsDown now idxs (false, s)).1 =
      ((s.role == .leader) && !(idxs.isEmpty) &&
        !(hasMajorityL (idxs.foldl markDownList s.members))) := by
  intro idxs
  induction idxs with
  | nil => intro s; simp [iterSetMemberAsDown]
  | cons i t ih =>
      intro s
      simp only [iterSetMemberAsDown, setMemberAsDown, Bool.false_or]
      rw [iterSetMemberAsDown_fst_or now t _ _, ih _]
      have hmono : hasMajorityL (markDownList s.members i) = false →
          hasMajorityL (t.foldl markDownList (markDownList s.members i)) =
            false :=
        hasMajorityL_foldl_mono t _
      cases t with
      | nil =>
          simp only [List.foldl_nil, List.foldl_cons, List.isEmpty_nil,
            List.isEmpty_cons, Bool.not_true, Bool.not_false, Bool.and_false,
            Bool.and_true, Bool.or_false]
          cases hL : (s.role == .leader) <;> simp
      | cons j u =>
          simp only [List.foldl_cons, List.isEmpty_cons, Bool.not_false,
            Bool.and_true]
          cases hL : (s.role == .leader)
          · simp
          · simp only [Bool.true_and]
            cases hM1 : hasMajorityL (markDownList s.members i)
            · have hF := hmono hM1
              rw [List.foldl_cons] at hF
              rw [hF]
              simp
            · simp

lemma foldl_markDownList_get? (idxs : List Nat) : ∀ (ms : List MemberData)
    (j : Nat),
    (idxs.foldl markDownList ms).get? j =
      if j ∈ idxs then (ms.get? j).map (fun m => { m with up := false })
      else ms.get? j := by
  induction idxs with
  | nil => intro ms j; simp
  | cons i t ih =>
      intro ms j
      rw [List.foldl_cons, ih]
      by_cases hj : j ∈ t
      · rw [if_pos hj, if_pos (List.mem_cons_of_mem i hj), markDownList_get?]
        by_cases hji : j = i
        · rw [if_pos hji]
          cases h : ms.get? j <;> simp
        · rw [if_neg hji]
      · rw [if_neg hj, markDownList_get?]
        by_cases hji : j = i
        · rw [if_pos hji,
            if_pos (by rw [hji]; exact List.mem_cons_self i t)]
        · rw [if_neg hji, if_neg (by
            intro hmem
            rcases List.mem_cons.mp hmem with h | h
            · exact hji h
            · exact hj h)]

/-- Claim C5: `checkMemberTimeouts(now)` marks down exactly the members with
lastUpdate + electionTimeout < now, returns StepDownSelf exactly when some
member timed out and doing so lost the majority while this node is leader
(NoAction otherwise), and its result and resulting state equal those of
calling `setMemberAsDown` for each timed-out member in turn. -/
theorem claim_C5 (s : TopoState) (now : Nat) :
    (∀ j m, s.members.get? j = some m →
      (checkMemberTimeouts s now).2.members.get? j =
        some (if timedOut s.electionTimeout now m = true
              then { m with up := false } else m)) ∧
    ((checkMemberTimeouts s now).1 = .stepDownSelf ↔
      (s.role = .leader ∧ timedOutIndices s now ≠ [] ∧
        hasMajorityL (checkMemberTimeouts s now).2.members = false)) ∧
    checkMemberTimeouts s now = checkMemberTimeoutsIter s now := by
  have hmem : ∀ j m, s.members.get? j = some m →
      (j ∈ timedOutIndices s now ↔
        timedOut s.electionTimeout now m = true) := by
    intro j m hjm
    have hj : j < s.members.length := by
      by_contra hge
      rw [List.get?_eq_none.mpr (Nat.le_of_not_lt hge)] at hjm
      exact Option.noConfusion hjm
    have hget : s.members[j] = m := by
      have h1 : s.members[j]? = some m := by
        rw [← List.get?_eq_getElem?]
        exact hjm
      rw [List.getElem?_eq_getElem hj] at h1
      exact Option.some.inj h1
    unfold timedOutIndices
    rw [List.mem_filter]
    simp [List.mem_range, hj, hjm, hget]
  refine ⟨?_, ?_, ?_⟩
  · intro j m hjm
    show ((timedOutIndices s now).foldl markDownList s.members).get? j = _
    rw [foldl_markDownList_get?]
    by_cases hto : timedOut s.electionTimeout now m = true
    · rw [if_pos ((hmem j m hjm).mpr hto), hjm, if_pos hto]
      rfl
    · rw [if_neg (fun hc => hto ((hmem j m hjm).mp hc)), hjm, if_neg hto]
  · by_cases hcond : s.role = .leader ∧ timedOutIndices s now ≠ [] ∧
        hasMajorityL ((timedOutIndices s now).foldl markDownList s.members) =
          false
    · simp only [checkMemberTimeouts]
      rw [if_pos hcond]
      exact iff_of_true rfl hcond
    · simp only [checkMemberTimeouts]
      rw [if_neg hcond]
      exact iff_of_false (by decide) hcond
  · have hbool : (((s.role == .leader) &&
        !(timedOutIndices s now).isEmpty &&
        !(hasMajorityL ((timedOutIndices s now).foldl markDownList
          s.members))) = true) ↔
        (s.role = .leader ∧ timedOutIndices s now ≠ [] ∧
          hasMajorityL ((timedOutIndices s now).foldl markDownList
            s.members) = false) := by
      simp [Bool.and_eq_true, Bool.not_eq_true', and_assoc]
    by_cases hcond : s.role = .leader ∧ timedOutIndices s now ≠ [] ∧
        hasMajorityL ((timedOutIndices s now).foldl markDownList s.members) =
          false
    · have hr1 : (iterSetMemberAsDown now (timedOutIndices s now)
          (false, s)).1 = true :=
        (iterSetMemberAsDown_fst now (timedOutIndices s now) s).trans
          (hbool.mpr hcond)
      simp only [checkMemberTimeouts, checkMemberTimeoutsIter]
      rw [iterSetMemberAsDown_snd now _ false s, if_pos hcond, hr1,
        if_pos rfl]
    · have hr0 : ((s.role == .leader) && !(timedOutIndices s now).isEmpty &&
          !(hasMajorityL ((timedOutIndices s now).foldl markDownList
            s.members))) = false := by
        rcases Bool.eq_false_or_eq_true ((s.role == .leader) &&
          !(timedOutIndices s now).isEmpty &&
          !(hasMajorityL ((timedOutIndices s now).foldl markDownList
            s.members))) with h | h
        · exact absurd (hbool.mp h) hcond
        · exact h
      have hr1 : (iterSetMemberAsDown now (timedOutIndices s now)
          (false, s)).1 = false :=
        (iterSetMemberAsDown_fst now (timedOutIndices s now) s).trans hr0
      simp only [checkMemberTimeouts, checkMemberTimeoutsIter]
      rw [iterSetMemberAsDown_snd now _ false s, if_neg hcond, hr1,
        if_neg (by decide)]

/-- Claim C5 witness: on the concrete reachable master state at time 100
(election timeout 10, peers last updated at 0) both peers time out, the
leader loses its majority, the action is StepDownSelf, the result equals
the iterated `setMemberAsDown` form, and peer 1 is marked down. -/
theorem claim_C5_witness :
    (checkMemberTimeouts masterState 100).1 = .stepDownSelf ∧
    checkMemberTimeouts masterState 100 =
      checkMemberTimeoutsIter masterState 100 ∧
    (checkMemberTimeouts masterState 100).2.members.get? 1 =
      some { wMember 1 false ⟨1, 5⟩ with up := false } := by
  have h := claim_C5 masterState 100
  refine ⟨h.2.1.mpr ⟨by decide, by decide, by decide⟩, h.2.2, ?_⟩
  have h1 := h.1 1 (wMember 1 false ⟨1, 5⟩) (by decide)
  rw [h1]
  decide
